import Mathlib

/-!
Verification of the DiffAR training core (`learner.py` of DIFFAR-fork).

The embedding below translates the arithmetic and control-flow content of
`DiffARLearner` into Lean: tensors of shape [N,T] become functions
`Fin N → Fin T → ℚ` (or lists of lists over ℝ where a square root occurs),
the random draws of `torch.randint` / `torch.randn_like` become explicit
inputs, exceptions become `Except`, and the filesystem effects of the
checkpoint store become explicit state on a small directory model.
-/

/-- Resolved configuration fields of `params` consumed by the learner:
`mask_loss_using_overlap` (the overlap-loss margin, sentinel -1 = disabled,
see the comment at learner.py lines 123-126), `batch_size_train`,
`batch_size_validation` and `spec_loss_coeff`. -/
structure Params where
  mask_loss_using_overlap : ℤ
  batch_size_train : ℚ
  batch_size_validation : ℚ
  spec_loss_coeff : ℚ

/-- Per-element absolute error, `F.l1_loss(noise, predicted.squeeze(1),
reduction='none')` at learner.py line 242. -/
def l1_err {N T : ℕ} (noise predicted : Fin N → Fin T → ℚ) : Fin N → Fin T → ℚ :=
  fun i j => |noise i j - predicted i j|

/-- The per-row normalization denominator `non_overlap = win_len - overlap +
samples_before` of learner.py line 249, as exact arithmetic. -/
def non_overlap_denom (T : ℕ) (samples_before k : ℤ) : ℚ :=
  (T : ℚ) - (k : ℚ) + (samples_before : ℚ)

/-- `DiffARLearner.get_loss_with_overlap_mask` (learner.py lines 239-252):
elementwise absolute error; in each row `i` the first
`max(0, overlap[i] - samples_before)` samples are zeroed (`loss[row, :k].zero_()`);
each row is divided by `non_overlap` and by `params.batch_size_train`; the
result is the sum of all elements. -/
def get_loss_with_overlap_mask (p : Params) {N T : ℕ}
    (noise predicted : Fin N → Fin T → ℚ) (overlap : Fin N → ℤ) : ℚ :=
  let samples_before := p.mask_loss_using_overlap
  let masked : Fin N → Fin T → ℚ := fun i j =>
    if (j : ℤ) < max 0 (overlap i - samples_before) then 0
    else l1_err noise predicted i j
  ∑ i, ∑ j, masked i j / non_overlap_denom T samples_before (overlap i) / p.batch_size_train

/-- The overlap-masked loss as the specification words it: for each row, the
sum of absolute errors over the active sample region
`[max(0, overlap[row] - margin), T)`, divided by the row denominator
`(T - overlap[row] + margin)` and by the batch size, summed over rows. -/
def overlapMaskedLossSpec (p : Params) {N T : ℕ}
    (noise predicted : Fin N → Fin T → ℚ) (overlap : Fin N → ℤ) : ℚ :=
  ∑ i, (∑ j ∈ Finset.univ.filter
        (fun j : Fin T => max 0 (overlap i - p.mask_loss_using_overlap) ≤ (j : ℤ)),
      |noise i j - predicted i j|)
    / non_overlap_denom T p.mask_loss_using_overlap (overlap i) / p.batch_size_train

/-- `F.l1_loss(noise, predicted.squeeze(1))` with the default mean reduction
(learner.py lines 270 and 354). -/
def l1_loss_mean {N T : ℕ} (noise predicted : Fin N → Fin T → ℚ) : ℚ :=
  (∑ i, ∑ j, |noise i j - predicted i j|) / ((N : ℚ) * (T : ℚ))

/-- The denoise-loss dispatch of `DiffARLearner.valid_loss`
(learner.py lines 353-356): plain mean L1 when `overlap is None`, otherwise
`get_loss_with_overlap_mask`. -/
def valid_loss_denoise (p : Params) {N T : ℕ}
    (noise predicted : Fin N → Fin T → ℚ) (overlap : Option (Fin N → ℤ)) : ℚ :=
  match overlap with
  | none => l1_loss_mean noise predicted
  | some ov => get_loss_with_overlap_mask p noise predicted ov

/-- The denoise-loss dispatch of `DiffARLearner.train_step`
(learner.py lines 269-272), identical to the validation one. -/
def train_step_denoise (p : Params) {N T : ℕ}
    (noise predicted : Fin N → Fin T → ℚ) (overlap : Option (Fin N → ℤ)) : ℚ :=
  match overlap with
  | none => l1_loss_mean noise predicted
  | some ov => get_loss_with_overlap_mask p noise predicted ov

/-- Whether `DiffARLearner.__init__` constructs the auxiliary log-mel
transform: `if params.spec_loss_coeff > 0.` (learner.py lines 35-36). -/
def has_log_mel_spec (p : Params) : Bool := 0 < p.spec_loss_coeff

/-- The loss blending of `DiffARLearner.train_step` (learner.py lines 274-281).
`spec_of` is the auxiliary log-mel spectral loss, passed as a thunk because the
source only computes it inside the `spec_loss_coeff > 0` branch; the returned
Bool records whether that branch (and hence the log-mel transform) was invoked.
Returns (loss, loss_spec, invoked). -/
def train_step_combine (p : Params) (loss_denoise : ℚ) (spec_of : Unit → ℚ) :
    ℚ × Option ℚ × Bool :=
  if 0 < p.spec_loss_coeff then
    let loss_coeff := p.spec_loss_coeff
    let loss_spec := spec_of ()
    ((1 - loss_coeff) * loss_denoise + loss_coeff * loss_spec, some loss_spec, true)
  else (loss_denoise, none, false)

/-- The identical loss blending of `DiffARLearner.valid_loss`
(learner.py lines 358-365). -/
def valid_loss_combine (p : Params) (loss_denoise : ℚ) (spec_of : Unit → ℚ) :
    ℚ × Option ℚ × Bool :=
  if 0 < p.spec_loss_coeff then
    let loss_coeff := p.spec_loss_coeff
    let loss_spec := spec_of ()
    ((1 - loss_coeff) * loss_denoise + loss_coeff * loss_spec, some loss_spec, true)
  else (loss_denoise, none, false)

/-- Cumulative products with a running accumulator; `cumprodAux 1 l` is
numpy's `np.cumprod l`. -/
def cumprodAux (a : ℚ) : List ℚ → List ℚ
  | [] => []
  | x :: xs => (a * x) :: cumprodAux (a * x) xs

/-- `np.cumprod`. -/
def cumprod (l : List ℚ) : List ℚ := cumprodAux 1 l

/-- `noise_level = np.cumprod(1 - beta)` of `DiffARLearner.__init__`
(learner.py lines 38-40): the cumulative signal-retention curve. -/
def noise_level (beta : List ℚ) : List ℚ := cumprod (beta.map (fun b => 1 - b))

/-- One row of the forward-noising computation
`noise_scale_sqrt * audio + (1.0 - noise_scale)**0.5 * noise` for a row with
retention value `r` (float `x**0.5` on the non-negative operands that occur
here is `Real.sqrt`). -/
noncomputable def noisy_row (r : ℝ) (arow nrow : List ℝ) : List ℝ :=
  List.zipWith (fun a n => Real.sqrt r * a + Real.sqrt (1 - r) * n) arow nrow

/-- The forward-noising step of `DiffARLearner.train_step`
(learner.py lines 262-267): per example `i`, `noise_scale = noise_level[t[i]]`
and `noisy = sqrt(noise_scale) * audio[i] + sqrt(1 - noise_scale) * noise[i]`.
The draw `t = torch.randint(0, S, [N])` and the Gaussian draw
`noise = torch.randn_like(audio)` are modelled as explicit inputs. -/
noncomputable def train_step_noisy (noiseLevel : List ℝ) (t : List ℕ)
    (audio noiseT : List (List ℝ)) : List (List ℝ) :=
  List.zipWith (fun ta nrow => noisy_row (noiseLevel.getD ta.1 0) ta.2 nrow)
    (t.zip audio) noiseT

/-- The forward-noising step of `DiffARLearner.valid_loss`
(learner.py lines 346-351), a line-for-line copy of the training one. -/
noncomputable def valid_loss_noisy (noiseLevel : List ℝ) (t : List ℕ)
    (audio noiseT : List (List ℝ)) : List (List ℝ) :=
  List.zipWith (fun ta nrow => noisy_row (noiseLevel.getD ta.1 0) ta.2 nrow)
    (t.zip audio) noiseT

/-- Classification of a scalar loss value, enough to model `torch.isnan`:
finite, NaN, or an infinity. -/
inductive TVal where
  | finite (q : ℚ)
  | nan
  | posInf
  | negInf
deriving DecidableEq

/-- `torch.isnan` on a scalar: true exactly on NaN, false on infinities. -/
def TVal.isnan : TVal → Bool
  | .nan => true
  | _ => false

/-- Whether a value is finite (neither NaN nor an infinity). -/
def TVal.isfinite : TVal → Bool
  | .finite _ => true
  | _ => false

/-- The per-step NaN guard of `DiffARLearner.train_epoch`
(learner.py lines 121-138): for each batch the loss is produced, then
`if torch.isnan(loss).any(): raise RuntimeError(... step ...)` fires before
`self.step += 1`.  Given the step counter and the sequence of per-step losses,
returns `Except.error s` when the epoch is aborted by that RuntimeError at
step index `s`, else `Except.ok` with the final step counter. -/
def train_epoch_check (step : ℕ) : List TVal → Except ℕ ℕ
  | [] => .ok step
  | l :: rest => if l.isnan then .error step else train_epoch_check (step + 1) rest

/-- IEEE-style addition on classified scalar values: anything plus NaN is
NaN, opposite infinities give NaN, an infinity absorbs finite values.  This
is the `epoch_loss_val += loss_val.item()` accumulation of `eval_epoch`. -/
def TVal.add : TVal → TVal → TVal
  | .nan, _ => .nan
  | _, .nan => .nan
  | .posInf, .negInf => .nan
  | .negInf, .posInf => .nan
  | .posInf, _ => .posInf
  | _, .posInf => .posInf
  | .negInf, _ => .negInf
  | _, .negInf => .negInf
  | .finite a, .finite b => .finite (a + b)

/-- The NaN guard of `DiffARLearner.eval_epoch` (learner.py lines 152-186):
per validation batch the loss is accumulated into `epoch_loss_val`, then
`if torch.isnan(torch.tensor(epoch_loss_val)).any(): raise RuntimeError(...)`
checks the accumulated value; `self.step` is not advanced during validation,
so the raised error always carries the current training step index `step`.
Returns the final accumulated loss, or `Except.error step` when the guard
fires. -/
def eval_epoch_check (step : ℕ) (acc : TVal) : List TVal → Except ℕ TVal
  | [] => .ok acc
  | l :: rest =>
    let acc2 := acc.add l
    if acc2.isnan then .error step else eval_epoch_check step acc2 rest

/-- The top-level run wrapper of `mytrain` (learner.py lines 459-467): the
`try` block runs training once; the bare `except:` handler catches any
exception from it, prints a fixed message, calls
`torch.distributed.destroy_process_group()` and returns — training is not
re-entered and the exception is not re-raised.  Input: the training outcome
(the error value is the step index carried by the RuntimeError).  Output:
(whether the distributed process group was torn down, the exception surfaced
to the caller, if any). -/
def mytrain_handle (result : Except ℕ ℕ) : Bool × Option ℕ :=
  match result with
  | .ok _ => (false, none)
  | .error _ => (true, none)

/-- The step accounting of `DiffARLearner.train` (learner.py lines 198-237):
each iteration of `while True` first runs a full training epoch (one step per
batch, so the step counter grows by `batchesPerEpoch`), and only then checks
`if max_steps is not None and self.step >= max_steps: return`.  `fuel` bounds
the number of epochs simulated; the result is `some (final step counter,
training steps performed)` when the loop returned within `fuel` epochs. -/
def train_loop (fuel batchesPerEpoch : ℕ) (maxSteps : Option ℕ)
    (step stepsDone : ℕ) : Option (ℕ × ℕ) :=
  match fuel with
  | 0 => none
  | f + 1 =>
    let step2 := step + batchesPerEpoch
    let done2 := stepsDone + batchesPerEpoch
    match maxSteps with
    | some m =>
      if m ≤ step2 then some (step2, done2)
      else train_loop f batchesPerEpoch (some m) step2 done2
    | none => train_loop f batchesPerEpoch none step2 done2

/-- A saved checkpoint data file `weights-{step}.pt` of one retention pool,
with its modification time. -/
structure CkptEntry where
  step : ℕ
  mtime : ℕ
deriving DecidableEq, Repr

/-- One checkpoint pool directory: the data files plus the `weights.pt`
symlink, recorded as (target step, mtime of the symlink itself). -/
structure CkptDir where
  files : List CkptEntry
  link : Option (ℕ × ℕ)
deriving DecidableEq, Repr

/-- Modification times of every `*.pt` entry of the pool, symlink included
(that is what the shell glob at learner.py line 88 matches). -/
def CkptDir.mtimes (d : CkptDir) : List ℕ :=
  d.files.map CkptEntry.mtime ++ (match d.link with | some tm => [tm.2] | none => [])

/-- Whether the pruning shell command keeps an entry of modification time `m`:
`ls -t` sorts newest first and `awk NR>4` feeds every line after the fourth to
`rm`, so (mtimes being pairwise distinct in this model) an entry survives iff
fewer than 4 entries are newer. -/
def keepEntry (all : List ℕ) (m : ℕ) : Bool :=
  (all.filter (fun x => m < x)).length < 4

/-- The retention pruning at learner.py line 88 (and line 103 for the `min`
pool): delete all but the 4 most recent `*.pt` entries by modification time,
the symlink counted among them. -/
def CkptDir.prune (d : CkptDir) : CkptDir :=
  let all := d.mtimes
  { files := d.files.filter (fun e => keepEntry all e.mtime)
    link := match d.link with
      | some tm => if keepEntry all tm.2 then some tm else none
      | none => none }

/-- `DiffARLearner.save_to_checkpoint` (learner.py lines 77-88): write
`weights-{step}.pt` at time `now` (overwriting any file of the same step),
unlink and recreate the `weights.pt` symlink pointing at the new file (its
mtime `now + 1` is strictly later), then prune the pool.
`save_to_min_checkpoint` (lines 90-103) is the same logic in its own pool
directory. -/
def save_to_checkpoint (d : CkptDir) (step now : ℕ) : CkptDir :=
  CkptDir.prune
    { files := ⟨step, now⟩ :: d.files.filter (fun e => e.step ≠ step)
      link := some (step, now + 1) }

/-- `n` successive saves into an initially empty pool, at steps `0, …, n-1`
with strictly increasing modification times. -/
def iter_saves : ℕ → CkptDir
  | 0 => ⟨[], none⟩
  | n + 1 => save_to_checkpoint (iter_saves n) n (2 * n)

/-- The training state a checkpoint carries that `load_state_dict`
(learner.py lines 69-75) restores; only the step counter matters to the
claims below. -/
structure TrainerState where
  step : ℕ
deriving DecidableEq

/-- Failure modes of `torch.load` on a checkpoint path: the file is absent
(`FileNotFoundError`), or it is present but fails to deserialize. -/
inductive LoadError where
  | fileNotFound
  | corrupt
deriving DecidableEq

/-- `DiffARLearner.restore_from_checkpoint` (learner.py lines 105-114): the
`try` block loads and installs the checkpoint and returns True; the sole
`except FileNotFoundError` handler logs "training from scratch" and returns
False, keeping the freshly initialized state `current`; any other exception
propagates to the caller. -/
def restore_from_checkpoint (current : TrainerState)
    (load : Except LoadError TrainerState) :
    Except LoadError (TrainerState × Bool × String) :=
  match load with
  | .ok c => .ok (c, true, "loaded checkpoint")
  | .error .fileNotFound => .ok (current, false, "training from scratch")
  | .error e => .error e

/-! ## Theorems -/

/-- Helper: an epoch whose losses are all non-NaN completes, advancing the
step counter by one per batch. -/
theorem train_epoch_check_ok_of_no_nan (step0 : ℕ) (ls : List TVal)
    (h : ∀ x ∈ ls, x.isnan = false) :
    train_epoch_check step0 ls = .ok (step0 + ls.length) := by
  induction ls generalizing step0 with
  | nil => simp [train_epoch_check]
  | cons l rest ih =>
    have hl := h l (by simp)
    have hr := ih (step0 + 1) (fun x hx => h x (by simp [hx]))
    simp [train_epoch_check, hl, hr]
    omega

/-- Helper: the first NaN loss aborts the epoch with the step index at which
it occurred. -/
theorem train_epoch_check_error_at (step0 : ℕ) (pre : List TVal) (l : TVal)
    (post : List TVal) (hpre : ∀ x ∈ pre, x.isnan = false) (hl : l.isnan = true) :
    train_epoch_check step0 (pre ++ l :: post) = .error (step0 + pre.length) := by
  induction pre generalizing step0 with
  | nil => simp [train_epoch_check, hl]
  | cons a as ih =>
    have ha := hpre a (by simp)
    have hr := ih (step0 + 1) (fun x hx => hpre x (by simp [hx]))
    simp [train_epoch_check, ha, hr]
    omega

/-- Helper: adding a NaN summand makes the accumulated value NaN. -/
theorem TVal.isnan_add_nan (acc x : TVal) (hx : x.isnan = true) :
    (acc.add x).isnan = true := by
  cases x with
  | nan => cases acc <;> rfl
  | finite q => simp [TVal.isnan] at hx
  | posInf => simp [TVal.isnan] at hx
  | negInf => simp [TVal.isnan] at hx

/-- Helper: once a NaN loss occurs among the validation batches, the
accumulated-value guard of `eval_epoch` fires (a NaN accumulated earlier only
makes it fire sooner), always with the same step index since validation does
not advance the step counter. -/
theorem eval_epoch_check_error_of_mem_nan (step : ℕ) (acc : TVal)
    (ls : List TVal) (h : ∃ x ∈ ls, x.isnan = true) :
    eval_epoch_check step acc ls = .error step := by
  induction ls generalizing acc with
  | nil => simp at h
  | cons a rest ih =>
    by_cases ha : (acc.add a).isnan = true
    · simp [eval_epoch_check, ha]
    · obtain ⟨x, hx, hxn⟩ := h
      rcases List.mem_cons.mp hx with rfl | hx2
      · exact absurd (TVal.isnan_add_nan acc x hxn) ha
      · rw [show eval_epoch_check step acc (a :: rest)
            = if (acc.add a).isnan then .error step
              else eval_epoch_check step (acc.add a) rest from rfl,
          if_neg ha]
        exact ih (acc.add a) ⟨x, hx2, hxn⟩

/-- C4 (amended): a NaN loss at any training or validation step is fatal and
never retried: `train_epoch` aborts at exactly the step where the NaN loss
occurs, raising an error identifying that step index; `eval_epoch` raises an
error identifying the current training step index as soon as a NaN loss
enters its accumulated validation loss; the top-level handler of `mytrain`
then tears down the distributed process group and ends the run without
re-entering training (the bare except swallows the exception after teardown).
An epoch whose losses are all non-NaN runs to completion. -/
theorem nan_loss_fatal (step0 : ℕ) (pre : List TVal) (l : TVal)
    (post : List TVal) (hpre : ∀ x ∈ pre, x.isnan = false) (hl : l.isnan = true) :
    train_epoch_check step0 (pre ++ l :: post) = .error (step0 + pre.length) ∧
    (∀ ls : List TVal, (∀ x ∈ ls, x.isnan = false) →
      train_epoch_check step0 ls = .ok (step0 + ls.length)) ∧
    (∀ (acc : TVal) (vpre vpost : List TVal),
      eval_epoch_check step0 acc (vpre ++ l :: vpost) = .error step0) ∧
    (∀ s : ℕ, mytrain_handle (.error s) = (true, none)) :=
  ⟨train_epoch_check_error_at step0 pre l post hpre hl,
   fun ls h => train_epoch_check_ok_of_no_nan step0 ls h,
   fun acc vpre vpost =>
     eval_epoch_check_error_of_mem_nan step0 acc _ ⟨l, by simp, hl⟩,
   fun _ => rfl⟩

/-- Witness for C4's amended theorem at a concrete input: one clean training
step followed by a NaN step. -/
theorem nan_loss_fatal_witness :
    train_epoch_check 0 ([TVal.finite 1] ++ TVal.nan :: []) = .error (0 + 1) ∧
    (∀ ls : List TVal, (∀ x ∈ ls, x.isnan = false) →
      train_epoch_check 0 ls = .ok (0 + ls.length)) ∧
    (∀ (acc : TVal) (vpre vpost : List TVal),
      eval_epoch_check 0 acc (vpre ++ TVal.nan :: vpost) = .error 0) ∧
    (∀ s : ℕ, mytrain_handle (.error s) = (true, none)) :=
  nan_loss_fatal 0 [TVal.finite 1] TVal.nan [] (by decide) (by decide)

/-- C4 counterexample: an infinite (hence non-finite) loss at step 0 is NOT
detected by the `torch.isnan` guard of `train_epoch`; the epoch completes
normally and training continues, contradicting the claim that any non-finite
(NaN or Inf) loss is fatal. -/
theorem inf_loss_not_detected :
    train_epoch_check 0 [TVal.posInf] = Except.ok 1 ∧
    TVal.posInf.isfinite = false := ⟨rfl, rfl⟩

/-- C5 (amended): with `max_steps = 0` and the restored step counter at any
value `s0`, the loop returns at the first epoch-end budget check — but only
after `train_epoch` has already run a full epoch, performing one training
step per batch (`b` steps); the budget is checked once per epoch, never
mid-epoch. -/
theorem budget_checked_at_epoch_end (b s0 : ℕ) :
    train_loop 1 b (some 0) s0 0 = some (s0 + b, b) := by
  simp [train_loop]

/-- C5 counterexample: `max_steps = 0`, restored step 0, one batch per epoch:
the loop terminates at the first epoch-end check having performed one training
step, not zero. -/
theorem max_steps_zero_performs_a_step :
    train_loop 1 1 (some 0) 0 0 = some (1, 1) ∧
    (train_loop 1 1 (some 0) 0 0).map Prod.snd ≠ some 0 := by decide

/-- C7: a missing checkpoint file is recovered locally — the learner keeps
the freshly initialized state and logs "training from scratch"; a present but
corrupt checkpoint propagates its error to the caller with no fallback; a
successful load installs the checkpoint state. -/
theorem restore_checkpoint_error_handling (current : TrainerState)
    (load : Except LoadError TrainerState) :
    (load = .error .fileNotFound →
      restore_from_checkpoint current load
        = .ok (current, false, "training from scratch")) ∧
    (load = .error .corrupt →
      restore_from_checkpoint current load = .error .corrupt) ∧
    (∀ c, load = .ok c →
      restore_from_checkpoint current load = .ok (c, true, "loaded checkpoint")) := by
  refine ⟨fun h => ?_, fun h => ?_, fun c h => ?_⟩ <;> subst h <;> rfl

/-- Witness for C7 at concrete inputs: all three load outcomes. -/
theorem restore_checkpoint_error_handling_witness :
    restore_from_checkpoint ⟨0⟩ (.error .fileNotFound)
      = .ok (⟨0⟩, false, "training from scratch") ∧
    restore_from_checkpoint ⟨0⟩ (.error .corrupt) = .error .corrupt ∧
    restore_from_checkpoint ⟨0⟩ (.ok ⟨7⟩) = .ok (⟨7⟩, true, "loaded checkpoint") :=
  ⟨(restore_checkpoint_error_handling ⟨0⟩ (.error .fileNotFound)).1 rfl,
   (restore_checkpoint_error_handling ⟨0⟩ (.error .corrupt)).2.1 rfl,
   (restore_checkpoint_error_handling ⟨0⟩ (.ok ⟨7⟩)).2.2 ⟨7⟩ rfl⟩

/-- C8 (amended): the per-row denominator `T - overlap[row] + margin` is
positive whenever the row's overlap is at most `T` and either the margin is
positive or the row is not entirely overlapped; it is zero exactly in the
remaining enabled configuration, margin = 0 with `overlap[row] = T`. -/
theorem non_overlap_denom_pos (T : ℕ) (margin k : ℤ) (hm : 0 ≤ margin)
    (hk : k ≤ (T : ℤ)) (h : 0 < margin ∨ k < (T : ℤ)) :
    0 < non_overlap_denom T margin k := by
  unfold non_overlap_denom
  rcases h with h | h
  · have h1 : (k : ℚ) ≤ (T : ℚ) := by exact_mod_cast hk
    have h2 : (0 : ℚ) < (margin : ℚ) := by exact_mod_cast h
    linarith
  · have h1 : (k : ℚ) + 1 ≤ (T : ℚ) := by exact_mod_cast h
    have h2 : (0 : ℚ) ≤ (margin : ℚ) := by exact_mod_cast hm
    linarith

/-- Witness for C8's amended theorem: T = 100, margin = 10, a fully
overlapped row (overlap = 100) still has positive denominator 10. -/
theorem non_overlap_denom_pos_witness :
    (0 : ℤ) < 10 ∧ 0 < non_overlap_denom 100 10 100 :=
  ⟨by decide,
   non_overlap_denom_pos 100 10 100 (by decide) (by decide) (Or.inl (by decide))⟩

/-- C8 counterexample: with margin = 0 (the enabled configuration the source
comment documents as "mask all overlap") and a row entirely overlapped
(`overlap[row] = T = 100`), the denominator used for the per-row division is
zero, so the division is not well-defined there. -/
theorem non_overlap_denom_zero_cex : non_overlap_denom 100 0 100 = 0 := by
  norm_num [non_overlap_denom]

/-- C9: with `spec_loss_coeff = 0` both the training step and the validation
loss return exactly the denoise loss — no blending arithmetic is applied and
the auxiliary log-mel branch is not invoked (nor is the transform constructed);
with a positive coefficient `c` the returned loss is the convex combination
`(1-c)*denoise + c*spec`. -/
theorem spec_loss_blending (p : Params) (ld : ℚ) (spec_of : Unit → ℚ) :
    (p.spec_loss_coeff = 0 →
      train_step_combine p ld spec_of = (ld, none, false) ∧
      valid_loss_combine p ld spec_of = (ld, none, false) ∧
      has_log_mel_spec p = false) ∧
    (0 < p.spec_loss_coeff →
      train_step_combine p ld spec_of =
        ((1 - p.spec_loss_coeff) * ld + p.spec_loss_coeff * spec_of (),
          some (spec_of ()), true) ∧
      valid_loss_combine p ld spec_of =
        ((1 - p.spec_loss_coeff) * ld + p.spec_loss_coeff * spec_of (),
          some (spec_of ()), true)) := by
  constructor
  · intro h
    simp [train_step_combine, valid_loss_combine, has_log_mel_spec, h]
  · intro h
    simp [train_step_combine, valid_loss_combine, h]

/-- Witness for C9 at concrete inputs: coefficient 0 and coefficient 1/2. -/
theorem spec_loss_blending_witness :
    (train_step_combine ⟨0, 1, 1, 0⟩ 5 (fun _ => 7) = (5, none, false) ∧
      valid_loss_combine ⟨0, 1, 1, 0⟩ 5 (fun _ => 7) = (5, none, false) ∧
      has_log_mel_spec ⟨0, 1, 1, 0⟩ = false) ∧
    (train_step_combine ⟨0, 1, 1, 1/2⟩ 5 (fun _ => 7) =
        ((1 - (1/2 : ℚ)) * 5 + (1/2 : ℚ) * 7, some 7, true) ∧
      valid_loss_combine ⟨0, 1, 1, 1/2⟩ 5 (fun _ => 7) =
        ((1 - (1/2 : ℚ)) * 5 + (1/2 : ℚ) * 7, some 7, true)) :=
  ⟨(spec_loss_blending ⟨0, 1, 1, 0⟩ 5 (fun _ => 7)).1 rfl,
   ((spec_loss_blending ⟨0, 1, 1, 1/2⟩ 5 (fun _ => 7)).2 (by norm_num)).1,
   ((spec_loss_blending ⟨0, 1, 1, 1/2⟩ 5 (fun _ => 7)).2 (by norm_num)).2⟩

/-- C1: `get_loss_with_overlap_mask` computes exactly what the specification
describes — per-element absolute error, each row zeroed on
`[0, max(0, overlap[row] - margin))`, each row divided by
`(T - overlap[row] + margin)` and by the batch size, all elements summed —
and for T = 100, overlap = [50, 0], margin = 10 the per-row denominators are
60 and 110. -/
theorem overlap_mask_loss_correct (p : Params)
    (hmargin : 0 ≤ p.mask_loss_using_overlap) {N T : ℕ}
    (noise predicted : Fin N → Fin T → ℚ) (overlap : Fin N → ℤ) :
    get_loss_with_overlap_mask p noise predicted overlap
      = overlapMaskedLossSpec p noise predicted overlap ∧
    non_overlap_denom 100 p.mask_loss_using_overlap 50
      = 100 - 50 + p.mask_loss_using_overlap ∧
    non_overlap_denom 100 10 50 = 60 ∧
    non_overlap_denom 100 10 0 = 110 := by
  refine ⟨?_, by norm_num [non_overlap_denom], by norm_num [non_overlap_denom],
    by norm_num [non_overlap_denom]⟩
  simp only [get_loss_with_overlap_mask, overlapMaskedLossSpec, l1_err]
  refine Finset.sum_congr rfl (fun i _ => ?_)
  rw [Finset.sum_div, Finset.sum_div, Finset.sum_filter]
  refine Finset.sum_congr rfl (fun j _ => ?_)
  by_cases h : (j : ℤ) < max 0 (overlap i - p.mask_loss_using_overlap)
  · rw [if_pos h, if_neg (not_le.mpr h)]
    simp
  · rw [if_neg h, if_pos (not_lt.mp h)]

/-- Witness for C1 at a concrete input: N = T = 1, margin 10. -/
theorem overlap_mask_loss_correct_witness :
    (0 : ℤ) ≤ 10 ∧
    (get_loss_with_overlap_mask ⟨10, 2, 1, 0⟩
        (fun (_ : Fin 1) (_ : Fin 1) => (1 : ℚ)) (fun _ _ => 0) (fun _ => (0 : ℤ))
      = overlapMaskedLossSpec ⟨10, 2, 1, 0⟩
        (fun (_ : Fin 1) (_ : Fin 1) => (1 : ℚ)) (fun _ _ => 0) (fun _ => (0 : ℤ)) ∧
    non_overlap_denom 100 (10 : ℤ) 50 = 100 - 50 + (10 : ℤ) ∧
    non_overlap_denom 100 10 50 = 60 ∧
    non_overlap_denom 100 10 0 = 110) :=
  ⟨by decide,
   overlap_mask_loss_correct ⟨10, 2, 1, 0⟩ (by decide)
     (fun (_ : Fin 1) (_ : Fin 1) => (1 : ℚ)) (fun _ _ => 0) (fun _ => (0 : ℤ))⟩

/-- C10: the overlap-masked loss always divides by the configured training
batch size `params.batch_size_train`, never by the number of rows N actually
passed in — also on the validation path, whose batches are sized by
`batch_size_validation`.  The concrete instance has N = 1 and
`batch_size_validation = 1` but `batch_size_train = 2`: the returned loss is
1/2, i.e. divided by the training batch size. -/
theorem valid_loss_divides_by_train_batch_size :
    (∀ (p : Params) (N T : ℕ) (noise predicted : Fin N → Fin T → ℚ)
        (ov : Fin N → ℤ),
      valid_loss_denoise p noise predicted (some ov)
        = (∑ i, ∑ j, (if ((j : Fin T) : ℤ)
                < max 0 (ov i - p.mask_loss_using_overlap) then 0
              else |noise i j - predicted i j|)
            / non_overlap_denom T p.mask_loss_using_overlap (ov i))
          / p.batch_size_train) ∧
    valid_loss_denoise ⟨0, 2, 1, 0⟩ (fun (_ : Fin 1) (_ : Fin 1) => (1 : ℚ))
      (fun _ _ => 0) (some (fun _ => (0 : ℤ))) = 1 / 2 := by
  constructor
  · intro p N T noise predicted ov
    simp only [valid_loss_denoise, get_loss_with_overlap_mask, l1_err,
      Finset.sum_div]
  · norm_num [valid_loss_denoise, get_loss_with_overlap_mask, l1_err,
      non_overlap_denom, Fin.sum_univ_one]

/-- Helper: `cumprodAux` preserves length. -/
theorem cumprodAux_length (a : ℚ) (l : List ℚ) :
    (cumprodAux a l).length = l.length := by
  induction l generalizing a with
  | nil => rfl
  | cons x xs ih => simp [cumprodAux, ih]

/-- Helper: the t-th entry of `cumprodAux a l` is `a` times the product of the
first `t+1` entries of `l`. -/
theorem cumprodAux_getD (a : ℚ) (l : List ℚ) (t : ℕ) (ht : t < l.length) :
    (cumprodAux a l).getD t 0 = a * (l.take (t + 1)).prod := by
  induction l generalizing a t with
  | nil => simp at ht
  | cons x xs ih =>
    cases t with
    | zero => simp [cumprodAux]
    | succ t =>
      have ht2 : t < xs.length := by simpa using ht
      rw [show cumprodAux a (x :: xs) = (a * x) :: cumprodAux (a * x) xs from rfl,
        List.getD_cons_succ, ih (a * x) t ht2, List.take_succ_cons,
        List.prod_cons, mul_assoc]

/-- Helper: with an accumulator in (0,1] and factors in (0,1), every entry of
`cumprodAux` lies in (0,1]. -/
theorem cumprodAux_mem_Ioc (a : ℚ) (ha : 0 < a ∧ a ≤ 1) (l : List ℚ)
    (hl : ∀ x ∈ l, 0 < x ∧ x < 1) :
    ∀ y ∈ cumprodAux a l, 0 < y ∧ y ≤ 1 := by
  induction l generalizing a with
  | nil => simp [cumprodAux]
  | cons x xs ih =>
    intro y hy
    have hx := hl x (by simp)
    have hax : 0 < a * x ∧ a * x ≤ 1 :=
      ⟨mul_pos ha.1 hx.1, mul_le_one₀ ha.2 (le_of_lt hx.1) (le_of_lt hx.2)⟩
    simp only [cumprodAux, List.mem_cons] at hy
    rcases hy with rfl | hy
    · exact hax
    · exact ih (a * x) hax (fun z hz => hl z (by simp [hz])) y hy

/-- C3: for every beta sequence with entries in (0,1), the retention curve
`noise_level = np.cumprod(1 - beta)` has the same length as beta, its entry t
equals the cumulative product `Π_{i≤t}(1 - beta[i])`, it is monotonically
non-increasing, and every value lies in (0,1]. -/
theorem noise_level_retention (beta : List ℚ) (hb : ∀ b ∈ beta, 0 < b ∧ b < 1) :
    (noise_level beta).length = beta.length ∧
    (∀ t, t < beta.length →
      (noise_level beta).getD t 0
        = ((beta.take (t + 1)).map (fun b => 1 - b)).prod) ∧
    (∀ t, t + 1 < beta.length →
      (noise_level beta).getD (t + 1) 0 ≤ (noise_level beta).getD t 0) ∧
    (∀ y ∈ noise_level beta, 0 < y ∧ y ≤ 1) := by
  set l := beta.map (fun b => 1 - b) with hldef
  have hlen : l.length = beta.length := by simp [hldef]
  have hl : ∀ x ∈ l, 0 < x ∧ x < 1 := by
    intro x hx
    rw [hldef, List.mem_map] at hx
    obtain ⟨b, hbmem, rfl⟩ := hx
    have := hb b hbmem
    constructor <;> linarith [this.1, this.2]
  have hA : ∀ t, t < l.length → (noise_level beta).getD t 0 = (l.take (t + 1)).prod := by
    intro t ht
    have h := cumprodAux_getD 1 l t ht
    simpa [noise_level, cumprod, ← hldef] using h
  refine ⟨?_, ?_, ?_, ?_⟩
  · simp [noise_level, cumprod, cumprodAux_length, ← hldef, hlen]
  · intro t ht
    rw [hA t (by omega), hldef, List.map_take]
  · intro t ht
    have htl : t + 1 < l.length := by omega
    have hsucc : l.take (t + 1 + 1) = l.take (t + 1) ++ l[t + 1]?.toList :=
      List.take_succ
    have hx : l[t + 1]? = some l[t + 1] := List.getElem?_eq_getElem htl
    rw [hA t (by omega), hA (t + 1) htl, hsucc, hx, Option.toList_some,
      List.prod_append, List.prod_singleton]
    have hxm : l[t + 1] ∈ l := List.getElem_mem htl
    have hx1 := hl _ hxm
    have hP : 0 < (l.take (t + 1)).prod :=
      List.prod_pos (fun y hy => (hl y (List.take_subset _ _ hy)).1)
    have hle := mul_le_mul_of_nonneg_left (le_of_lt hx1.2) (le_of_lt hP)
    simpa using hle
  · have h := cumprodAux_mem_Ioc 1 ⟨one_pos, le_refl 1⟩ l hl
    simpa [noise_level, cumprod, ← hldef] using h

/-- Witness for C3 at the concrete schedule beta = [1/2, 1/2]. -/
theorem noise_level_retention_witness :
    (∀ b ∈ [(1 : ℚ)/2, 1/2], 0 < b ∧ b < 1) ∧
    ((noise_level [(1 : ℚ)/2, 1/2]).length = ([(1 : ℚ)/2, 1/2] : List ℚ).length ∧
    (∀ t, t < ([(1 : ℚ)/2, 1/2] : List ℚ).length →
      (noise_level [(1 : ℚ)/2, 1/2]).getD t 0
        = ((([(1 : ℚ)/2, 1/2] : List ℚ).take (t + 1)).map (fun b => 1 - b)).prod) ∧
    (∀ t, t + 1 < ([(1 : ℚ)/2, 1/2] : List ℚ).length →
      (noise_level [(1 : ℚ)/2, 1/2]).getD (t + 1) 0
        ≤ (noise_level [(1 : ℚ)/2, 1/2]).getD t 0) ∧
    (∀ y ∈ noise_level [(1 : ℚ)/2, 1/2], 0 < y ∧ y ≤ 1)) :=
  ⟨by
    intro b hb
    simp only [List.mem_cons, List.not_mem_nil, or_false] at hb
    rcases hb with rfl | rfl <;> norm_num,
   noise_level_retention [(1 : ℚ)/2, 1/2] (by
    intro b hb
    simp only [List.mem_cons, List.not_mem_nil, or_false] at hb
    rcases hb with rfl | rfl <;> norm_num)⟩

/-- Helper: saving into a pool in canonical post-retention shape (three data
files with strictly decreasing mtimes, symlink recreated last) at a strictly
later time yields the canonical shape again: the new file and the fresh
symlink survive, and the oldest data file is the fifth-newest entry, so the
pruning deletes it. -/
theorem save_canonical (s1 s2 s3 step m1 m2 m3 ml now : ℕ)
    (h32 : m3 < m2) (h21 : m2 < m1) (h1n : m1 < now)
    (hs1 : s1 ≠ step) (hs2 : s2 ≠ step) (hs3 : s3 ≠ step) :
    save_to_checkpoint ⟨[⟨s1, m1⟩, ⟨s2, m2⟩, ⟨s3, m3⟩], some (s1, ml)⟩ step now
      = ⟨[⟨step, now⟩, ⟨s1, m1⟩, ⟨s2, m2⟩], some (step, now + 1)⟩ := by
  have e1 : ¬ (now < now) := by omega
  have e2 : ¬ (now < m1) := by omega
  have e3 : ¬ (now < m2) := by omega
  have e4 : ¬ (now < m3) := by omega
  have e5 : now < now + 1 := by omega
  have f1 : m1 < now := h1n
  have f2 : ¬ (m1 < m1) := by omega
  have f3 : ¬ (m1 < m2) := by omega
  have f4 : ¬ (m1 < m3) := by omega
  have f5 : m1 < now + 1 := by omega
  have g1 : m2 < now := by omega
  have g2 : m2 < m1 := h21
  have g3 : ¬ (m2 < m2) := by omega
  have g4 : ¬ (m2 < m3) := by omega
  have g5 : m2 < now + 1 := by omega
  have k1 : m3 < now := by omega
  have k2 : m3 < m1 := by omega
  have k3 : m3 < m2 := h32
  have k4 : ¬ (m3 < m3) := by omega
  have k5 : m3 < now + 1 := by omega
  have n1 : ¬ (now + 1 < now) := by omega
  have n2 : ¬ (now + 1 < m1) := by omega
  have n3 : ¬ (now + 1 < m2) := by omega
  have n4 : ¬ (now + 1 < m3) := by omega
  have n5 : ¬ (now + 1 < now + 1) := by omega
  simp [save_to_checkpoint, CkptDir.prune, CkptDir.mtimes, keepEntry,
    hs1, hs2, hs3, e1, e2, e3, e4, e5, f1, f2, f3, f4, f5,
    g1, g2, g3, g4, g5, k1, k2, k3, k4, k5, n1, n2, n3, n4, n5]

/-- Helper: the closed form of a pool after at least four successive saves:
the three most recent data files plus the symlink, which points at the most
recent save. -/
theorem iter_saves_canonical (n : ℕ) :
    iter_saves (n + 4) =
      ⟨[⟨n + 3, 2 * (n + 3)⟩, ⟨n + 2, 2 * (n + 2)⟩, ⟨n + 1, 2 * (n + 1)⟩],
        some (n + 3, 2 * (n + 3) + 1)⟩ := by
  induction n with
  | zero => decide
  | succ n ih =>
    have estep : iter_saves (n + 1 + 4)
        = save_to_checkpoint (iter_saves (n + 4)) (n + 4) (2 * (n + 4)) := rfl
    rw [estep, ih]
    have h := save_canonical (n + 3) (n + 2) (n + 1) (n + 4)
      (2 * (n + 3)) (2 * (n + 2)) (2 * (n + 1)) (2 * (n + 3) + 1) (2 * (n + 4))
      (by omega) (by omega) (by omega) (by omega) (by omega) (by omega)
    rw [h]

/-- C6 (amended): after N > 4 successive saves into one checkpoint pool,
exactly 3 checkpoint data files plus the alias remain (the retention bound of
4 most-recent-by-mtime entries includes the alias), and the alias always
resolves to the most recently saved checkpoint file, which is among the
surviving files. -/
theorem checkpoint_retention_bound (n : ℕ) :
    (iter_saves (n + 5)).files.length = 3 ∧
    (iter_saves (n + 5)).link = some (n + 4, 2 * (n + 4) + 1) ∧
    (⟨n + 4, 2 * (n + 4)⟩ : CkptEntry) ∈ (iter_saves (n + 5)).files := by
  have h := iter_saves_canonical (n + 1)
  have e : iter_saves (n + 5) = iter_saves ((n + 1) + 4) := rfl
  rw [e, h]
  exact ⟨rfl, rfl, by simp⟩

/-- C6 counterexample: after 5 > 4 successive saves, 3 data files plus the
alias remain in the pool — 4 entries in total — not 4 files plus the alias as
claimed; the alias does resolve to the file of the last save (step 4). -/
theorem checkpoint_retention_cex :
    (iter_saves 5).files.length = 3 ∧ (iter_saves 5).files.length ≠ 4 ∧
    (iter_saves 5).link = some (4, 2 * 4 + 1) ∧
    (iter_saves 5).files = [⟨4, 8⟩, ⟨3, 6⟩, ⟨2, 4⟩] := by decide

/-- Helper: a noised row is as long as the shorter of its audio and noise
rows. -/
theorem noisy_row_length (r : ℝ) (ar nr : List ℝ) :
    (noisy_row r ar nr).length = min ar.length nr.length := by
  simp [noisy_row]

/-- Helper: entry j of a noised row. -/
theorem noisy_row_getD (r : ℝ) (ar nr : List ℝ) (j : ℕ)
    (h1 : j < ar.length) (h2 : j < nr.length) :
    (noisy_row r ar nr).getD j 0
      = Real.sqrt r * ar.getD j 0 + Real.sqrt (1 - r) * nr.getD j 0 := by
  have hj : j < (noisy_row r ar nr).length := by
    simp [noisy_row]; omega
  rw [List.getD_eq_getElem _ _ hj, List.getD_eq_getElem _ _ h1,
    List.getD_eq_getElem _ _ h2]
  simp [noisy_row]

/-- Helper: the noised batch has as many rows as the shortest input. -/
theorem train_step_noisy_length (nl : List ℝ) (t : List ℕ)
    (audio noiseT : List (List ℝ)) :
    (train_step_noisy nl t audio noiseT).length
      = min (min t.length audio.length) noiseT.length := by
  simp [train_step_noisy]

/-- Helper: row i of the noised batch is row i of the audio noised with
retention `noise_level[t[i]]` against row i of the noise draw. -/
theorem train_step_noisy_getD_row (nl : List ℝ) (t : List ℕ)
    (audio noiseT : List (List ℝ)) (i : ℕ)
    (h1 : i < t.length) (h2 : i < audio.length) (h3 : i < noiseT.length) :
    (train_step_noisy nl t audio noiseT).getD i []
      = noisy_row (nl.getD (t.getD i 0) 0) (audio.getD i []) (noiseT.getD i []) := by
  have hi : i < (train_step_noisy nl t audio noiseT).length := by
    simp [train_step_noisy]; omega
  rw [List.getD_eq_getElem _ _ hi, List.getD_eq_getElem _ _ h1,
    List.getD_eq_getElem _ _ h2, List.getD_eq_getElem _ _ h3]
  simp [train_step_noisy]

/-- Helper: when every audio row and every noise row has length T, so does
every row of the noised batch. -/
theorem train_step_noisy_row_length (nl : List ℝ) (t : List ℕ)
    (audio noiseT : List (List ℝ)) (T : ℕ)
    (haT : ∀ r ∈ audio, r.length = T) (hnT : ∀ r ∈ noiseT, r.length = T) :
    ∀ row ∈ train_step_noisy nl t audio noiseT, row.length = T := by
  intro row hr
  rw [List.mem_iff_getElem] at hr
  obtain ⟨i, hi, hrow⟩ := hr
  have hlen := train_step_noisy_length nl t audio noiseT
  rw [hlen] at hi
  have h1 : i < t.length := by omega
  have h2 : i < audio.length := by omega
  have h3 : i < noiseT.length := by omega
  have hg : (train_step_noisy nl t audio noiseT).getD i [] = row := by
    rw [List.getD_eq_getElem _ _ (by rw [hlen]; omega), hrow]
  rw [← hg, train_step_noisy_getD_row nl t audio noiseT i h1 h2 h3,
    noisy_row_length]
  have ha := haT (audio.getD i [])
    (by rw [List.getD_eq_getElem _ _ h2]; exact List.getElem_mem h2)
  have hb := hnT (noiseT.getD i [])
    (by rw [List.getD_eq_getElem _ _ h3]; exact List.getElem_mem h3)
  rw [ha, hb]
  exact min_self T

/-- C2: the forward-noising computations of the training step and of the
validation loss are the very same function (no iterative schedule traversal
in either); for every per-example timestep draw `t` — each index in `[0, S)`,
the support of `torch.randint(0, S, [N])` — and every Gaussian draw of the
audio's shape, the noisy output has the audio's shape [N rows of length T],
and its entry (i, j) is
`sqrt(retention[t_i]) * audio[i][j] + sqrt(1 - retention[t_i]) * noise[i][j]`. -/
theorem forward_noising_correct (noiseLevel : List ℝ) (t : List ℕ)
    (audio noiseT : List (List ℝ)) (N T : ℕ)
    (ht : t.length = N) (ha : audio.length = N) (hn : noiseT.length = N)
    (hts : ∀ ti ∈ t, ti < noiseLevel.length)
    (haT : ∀ row ∈ audio, row.length = T)
    (hnT : ∀ row ∈ noiseT, row.length = T) :
    train_step_noisy noiseLevel t audio noiseT
      = valid_loss_noisy noiseLevel t audio noiseT ∧
    (train_step_noisy noiseLevel t audio noiseT).length = N ∧
    (∀ row ∈ train_step_noisy noiseLevel t audio noiseT, row.length = T) ∧
    (∀ i, i < N → ∀ j, j < T →
      ((train_step_noisy noiseLevel t audio noiseT).getD i []).getD j 0
        = Real.sqrt (noiseLevel.getD (t.getD i 0) 0) * (audio.getD i []).getD j 0
          + Real.sqrt (1 - noiseLevel.getD (t.getD i 0) 0)
            * (noiseT.getD i []).getD j 0) := by
  refine ⟨rfl, ?_, train_step_noisy_row_length noiseLevel t audio noiseT T haT hnT, ?_⟩
  · rw [train_step_noisy_length, ht, ha, hn, min_self, min_self]
  · intro i hi j hj
    have h1 : i < t.length := by omega
    have h2 : i < audio.length := by omega
    have h3 : i < noiseT.length := by omega
    rw [train_step_noisy_getD_row noiseLevel t audio noiseT i h1 h2 h3]
    have haI := haT (audio.getD i [])
      (by rw [List.getD_eq_getElem _ _ h2]; exact List.getElem_mem h2)
    have hnI := hnT (noiseT.getD i [])
      (by rw [List.getD_eq_getElem _ _ h3]; exact List.getElem_mem h3)
    exact noisy_row_getD _ _ _ j (by omega) (by omega)

/-- Witness for C2 at a concrete input: S = 1, retention curve [1], one
example of one sample, audio [[2]], noise draw [[3]]. -/
theorem forward_noising_correct_witness :
    train_step_noisy [(1 : ℝ)] [0] [[2]] [[3]]
      = valid_loss_noisy [(1 : ℝ)] [0] [[2]] [[3]] ∧
    (train_step_noisy [(1 : ℝ)] [0] [[2]] [[3]]).length = 1 ∧
    (∀ row ∈ train_step_noisy [(1 : ℝ)] [0] [[2]] [[3]], row.length = 1) ∧
    (∀ i, i < 1 → ∀ j, j < 1 →
      ((train_step_noisy [(1 : ℝ)] [0] [[2]] [[3]]).getD i []).getD j 0
        = Real.sqrt (([(1 : ℝ)]).getD (([0] : List ℕ).getD i 0) 0)
            * (([[2]] : List (List ℝ)).getD i []).getD j 0
          + Real.sqrt (1 - ([(1 : ℝ)]).getD (([0] : List ℕ).getD i 0) 0)
            * (([[3]] : List (List ℝ)).getD i []).getD j 0) :=
  forward_noising_correct [(1 : ℝ)] [0] [[2]] [[3]] 1 1 rfl rfl rfl
    (by simp) (by simp) (by simp)
